import Mathlib

/-!
Shallow embedding of the BAO profile-tree pipeline from
src/MODEL/bao_beslisboom_sourcecode.py: the classification rule, the layered
tree builder with its md5-keyed node registry, the fixed-point pruner, the
leaf depth filter and the profile exporter.

Modelling conventions.  The networkx DiGraph is an insertion-ordered list of
(node id, attributes) pairs plus an insertion-ordered edge list.
Presentation-only node attributes (label, fillcolor) are omitted.  The pyspark
aggregation is modelled as exact rational statistics over a list of records;
the eight redacted sub-category hit columns are modelled positionally.
Fallible python operations (dict KeyError, list IndexError, missing graph
paths) are modelled with Except, and the md5 digest of hashlib together with
the json.dumps serialisation is implemented over Nat.
-/

inductive ProfileType
  | chance
  | risk
  | inbetween
deriving DecidableEq

/-- The business rule defining the profile type of a group (the withColumn
chain of build_tree, source lines 156-170): threshold parameters are
percentages, the aggregated hit and refusal columns are fractions. -/
def classify_profile_type (applicant_hit_percentage refusal_percentage
    chance_max_hit_percentage_threshold chance_max_refusal_percentage_threshold
    risk_min_hit_percentage_threshold : ℚ) : ProfileType :=
  if applicant_hit_percentage ≤ chance_max_hit_percentage_threshold / 100 ∧
      refusal_percentage ≤ chance_max_refusal_percentage_threshold / 100 then
    .chance
  else if risk_min_hit_percentage_threshold / 100 ≤ applicant_hit_percentage then
    .risk
  else
    .inbetween

/-! ### md5 digest over Nat

Implementation of the md5 digest used by the node registry of build_tree
(hashlib.md5(json.dumps(...)).hexdigest(), source lines 109 and 213-215),
with 32-bit words represented as Nat reduced modulo 2 to the 32nd power. -/

def w32 (n : Nat) : Nat := n % 4294967296

/-- Left rotation of a 32-bit word; for x below 2 to the 32nd power the two
summands occupy disjoint bit ranges, so addition agrees with bitwise or. -/
def rotl32 (x s : Nat) : Nat := (x * 2 ^ s) % 4294967296 + (x % 4294967296) / 2 ^ (32 - s)

def md5F (b c d : Nat) : Nat := Nat.lor (Nat.land b c) (Nat.land (Nat.xor b 4294967295) d)

def md5G (b c d : Nat) : Nat := Nat.lor (Nat.land b d) (Nat.land c (Nat.xor d 4294967295))

def md5H (b c d : Nat) : Nat := Nat.xor (Nat.xor b c) d

def md5I (b c d : Nat) : Nat := Nat.xor c (Nat.lor b (Nat.xor d 4294967295))

def md5S : List Nat :=
  [7, 12, 17, 22, 7, 12, 17, 22, 7, 12, 17, 22, 7, 12, 17, 22,
   5, 9, 14, 20, 5, 9, 14, 20, 5, 9, 14, 20, 5, 9, 14, 20,
   4, 11, 16, 23, 4, 11, 16, 23, 4, 11, 16, 23, 4, 11, 16, 23,
   6, 10, 15, 21, 6, 10, 15, 21, 6, 10, 15, 21, 6, 10, 15, 21]

def md5K : List Nat :=
  [0xd76aa478, 0xe8c7b756, 0x242070db, 0xc1bdceee,
   0xf57c0faf, 0x4787c62a, 0xa8304613, 0xfd469501,
   0x698098d8, 0x8b44f7af, 0xffff5bb1, 0x895cd7be,
   0x6b901122, 0xfd987193, 0xa679438e, 0x49b40821,
   0xf61e2562, 0xc040b340, 0x265e5a51, 0xe9b6c7aa,
   0xd62f105d, 0x02441453, 0xd8a1e681, 0xe7d3fbc8,
   0x21e1cde6, 0xc33707d6, 0xf4d50d87, 0x455a14ed,
   0xa9e3e905, 0xfcefa3f8, 0x676f02d9, 0x8d2a4c8a,
   0xfffa3942, 0x8771f681, 0x6d9d6122, 0xfde5380c,
   0xa4beea44, 0x4bdecfa9, 0xf6bb4b60, 0xbebfbc70,
   0x289b7ec6, 0xeaa127fa, 0xd4ef3085, 0x04881d05,
   0xd9d4d039, 0xe6db99e5, 0x1fa27cf8, 0xc4ac5665,
   0xf4292244, 0x432aff97, 0xab9423a7, 0xfc93a039,
   0x655b59c3, 0x8f0ccc92, 0xffeff47d, 0x85845dd1,
   0x6fa87e4f, 0xfe2ce6e0, 0xa3014314, 0x4e0811a1,
   0xf7537e82, 0xbd3af235, 0x2ad7d2bb, 0xeb86d391]

/-- One of the 64 md5 operations on the running state (a, b, c, d). -/
def md5Round (M : Nat → Nat) (st : Nat × Nat × Nat × Nat) (i : Nat) :
    Nat × Nat × Nat × Nat :=
  let (a, b, c, d) := st
  let fg : Nat × Nat :=
    if i < 16 then (md5F b c d, i)
    else if i < 32 then (md5G b c d, (5 * i + 1) % 16)
    else if i < 48 then (md5H b c d, (3 * i + 5) % 16)
    else (md5I b c d, (7 * i) % 16)
  let f := w32 (fg.1 + a + md5K.getD i 0 + M fg.2)
  (d, w32 (b + rotl32 f (md5S.getD i 0)), b, c)

/-- Word j of a 64-byte chunk, little endian. -/
def chunkWord (chunk : List Nat) (j : Nat) : Nat :=
  chunk.getD (4 * j) 0 + 256 * chunk.getD (4 * j + 1) 0 +
    65536 * chunk.getD (4 * j + 2) 0 + 16777216 * chunk.getD (4 * j + 3) 0

def md5ProcessChunk (st : Nat × Nat × Nat × Nat) (chunk : List Nat) :
    Nat × Nat × Nat × Nat :=
  let (a0, b0, c0, d0) := st
  let r := (List.range 64).foldl (md5Round (chunkWord chunk)) (a0, b0, c0, d0)
  (w32 (a0 + r.1), w32 (b0 + r.2.1), w32 (c0 + r.2.2.1), w32 (d0 + r.2.2.2))

/-- md5 padding: a 1 bit, zeros up to 56 mod 64 bytes, then the bit length as
a 64-bit little-endian quantity. -/
def md5Pad (msg : List Nat) : List Nat :=
  msg ++ [128] ++ List.replicate ((119 - msg.length % 64) % 64) 0 ++
    (List.range 8).map (fun i => 8 * msg.length / 256 ^ i % 256)

def toChunksGo : Nat → List Nat → List (List Nat)
  | 0, _ => []
  | _, [] => []
  | fuel + 1, a :: l => (a :: l).take 64 :: toChunksGo fuel ((a :: l).drop 64)

/-- Split into 64-byte chunks; the fuel argument (one unit per chunk, the
length is more than enough) keeps the recursion structural. -/
def toChunks (l : List Nat) : List (List Nat) := toChunksGo l.length l

def md5Words (msg : List Nat) : Nat × Nat × Nat × Nat :=
  (toChunks (md5Pad msg)).foldl md5ProcessChunk
    (0x67452301, 0xefcdab89, 0x98badcfe, 0x10325476)

/-- The 16-byte md5 digest as one Nat, little-endian base-256 (byte i of the
digest is digit i), which matches the order hexdigest prints the bytes in. -/
def md5Nat (msg : List Nat) : Nat :=
  let r := md5Words msg
  r.1 % 4294967296 + 4294967296 * (r.2.1 % 4294967296 +
    4294967296 * (r.2.2.1 % 4294967296 + 4294967296 * (r.2.2.2 % 4294967296)))

def hexChar (n : Nat) : Char := if n < 10 then Char.ofNat (48 + n) else Char.ofNat (87 + n)

def byteToHex (b : Nat) : String := String.mk [hexChar (b / 16), hexChar (b % 16)]

/-- hexdigest: the 16 digest bytes printed as two lowercase hex digits each. -/
def md5Hex (msg : List Nat) : String :=
  String.join ((List.range 16).map (fun i => byteToHex (md5Nat msg / 256 ^ i % 256)))

/-! ### json.dumps serialisation and the registry key -/

/-- utf-8 encoding of one unicode code point. -/
def utf8EncodeCharNat (n : Nat) : List Nat :=
  if n < 128 then [n]
  else if n < 2048 then [192 + n / 64, 128 + n % 64]
  else if n < 65536 then [224 + n / 4096, 128 + n / 64 % 64, 128 + n % 64]
  else [240 + n / 262144, 128 + n / 4096 % 64, 128 + n / 64 % 64, 128 + n % 64]

/-- The byte sequence of encode("utf-8") on a python string. -/
def strBytes (s : String) : List Nat :=
  (s.data.map (fun c => utf8EncodeCharNat c.toNat)).flatten

/-- json.dumps escaping of a single character inside a string literal
(default ensure_ascii behaviour, basic multilingual plane). -/
def jsonEscapeChar (c : Char) : String :=
  if c = '"' then "\\\""
  else if c = '\\' then "\\\\"
  else if c = '\n' then "\\n"
  else if c = '\t' then "\\t"
  else if c = '\r' then "\\r"
  else if c.toNat < 32 then
    "\\u00" ++ byteToHex c.toNat
  else if c.toNat ≥ 128 then
    "\\u" ++ byteToHex (c.toNat / 256 % 256) ++ byteToHex (c.toNat % 256)
  else
    String.mk [c]

def jsonQuote (s : String) : String :=
  "\"" ++ String.join (s.data.map jsonEscapeChar) ++ "\""

/-- json.dumps of a python dict of strings, in insertion order, with the
default separators. -/
def jsonDumps (l : List (String × String)) : String :=
  "\x7b" ++ String.intercalate ", "
    (l.map (fun kv => jsonQuote kv.1 ++ ": " ++ jsonQuote kv.2)) ++ "\x7d"

/-- A FeatureCombination as registered in the node registry: the ordered
feature-name to value dict built at source line 208. -/
abbrev FeatureCombination := List (String × String)

/-- The canonical key the registry is indexed by: the md5 hexdigest of the
utf-8 encoded json serialisation of the combination (source lines 109,
213-215). -/
def keyOfCombo (c : FeatureCombination) : String := md5Hex (strBytes (jsonDumps c))

/-- python dict assignment on an association list: overwrite an existing
binding in place, otherwise append the new binding. -/
def dictInsert (l : List (String × Nat)) (k : String) (v : Nat) : List (String × Nat) :=
  if (l.lookup k).isSome then
    l.map (fun kv => if kv.1 = k then (k, v) else kv)
  else
    l ++ [(k, v)]

/-- A depth-one FeatureCombination for feature F whose value is a string of n
letters a; any two of these with different n are distinct combinations, and
each can occur in a build (a dataset containing both values registers both). -/
def aCombo (n : Nat) : FeatureCombination := [("F", String.mk (List.replicate n 'a'))]

/-! ### Data model, grouped statistics and the networkx tree -/

/-- One source row: categorical feature values, the two outcome booleans and
the eight redacted sub-category hit columns (modelled positionally). -/
structure Record where
  fvals : List (String × String)
  aanvrager_hit : Bool
  visumaanvraag_beslissing_negatief : Bool
  subHits : List Bool
deriving DecidableEq

def getVal (r : Record) (f : String) : String := (r.fvals.lookup f).getD ""

def featureTuple (fs : List String) (r : Record) : List String := fs.map (getVal r)

/-- One collected row of the per-layer aggregated dataframe. -/
structure Combo where
  vals : List String
  applicant_hit_percentage : ℚ
  refusal_percentage : ℚ
  group_size : Nat
  hit_counts : List Nat
  profile_type : ProfileType
deriving DecidableEq

def mkCombo (df : List Record) (fs : List String) (cmh cmr rmh : ℚ)
    (k : List String) : Combo :=
  let g := df.filter (fun r => featureTuple fs r == k)
  let hitp : ℚ := (g.countP (fun r => r.aanvrager_hit) : ℚ) / (g.length : ℚ)
  let refp : ℚ := (g.countP (fun r => r.visumaanvraag_beslissing_negatief) : ℚ) /
    (g.length : ℚ)
  { vals := k,
    applicant_hit_percentage := hitp,
    refusal_percentage := refp,
    group_size := g.length,
    hit_counts := (List.range 8).map (fun i => g.countP (fun r => r.subHits.getD i false)),
    profile_type := classify_profile_type hitp refp cmh cmr rmh }

/-- One layer of the grouped dataframe of build_tree (source lines 127-178):
group by the feature prefix, aggregate, drop groups under the minimal group
size, classify, and sort ascending lexicographically by the feature values. -/
def layerCombos (df : List Record) (fs : List String) (cmh cmr rmh : ℚ)
    (m : Nat) : List Combo :=
  let keys := (df.map (featureTuple fs)).dedup
  let qual := keys.filter
    (fun k => decide (m ≤ (df.filter (fun r => featureTuple fs r == k)).length))
  (List.insertionSort (· ≤ ·) qual).map (mkCombo df fs cmh cmr rmh)

/-- networkx DiGraph: insertion-ordered node and edge lists. -/
structure NodeAttrs where
  depth : Nat
  key : String
  profile_type : ProfileType
  total_count : Nat
  hit_percentage : ℚ
  refusal_percentage : ℚ
  hit_counts : List Nat
deriving DecidableEq

structure DiGraph where
  nodes : List (Nat × NodeAttrs)
  edges : List (Nat × Nat)
deriving DecidableEq

def DiGraph.nodeIds (t : DiGraph) : List Nat := t.nodes.map Prod.fst

def DiGraph.outDegree (t : DiGraph) (x : Nat) : Nat := (t.edges.filter (fun e => e.1 == x)).length

def DiGraph.inDegree (t : DiGraph) (x : Nat) : Nat := (t.edges.filter (fun e => e.2 == x)).length

def DiGraph.successors (t : DiGraph) (x : Nat) : List Nat :=
  (t.edges.filter (fun e => e.1 == x)).map Prod.snd

def DiGraph.predecessors (t : DiGraph) (x : Nat) : List Nat :=
  (t.edges.filter (fun e => e.2 == x)).map Prod.fst

def DiGraph.removeNode (t : DiGraph) (x : Nat) : DiGraph :=
  ⟨t.nodes.filter (fun kv => kv.1 != x),
    t.edges.filter (fun e => e.1 != x && e.2 != x)⟩

def DiGraph.size (t : DiGraph) : Nat := t.nodes.length

def DiGraph.getAttr (t : DiGraph) (x : Nat) : NodeAttrs :=
  (t.nodes.lookup x).getD ⟨0, "", .inbetween, 0, 0, 0, []⟩

def orError {α : Type} (o : Option α) (msg : String) : Except String α :=
  match o with
  | some a => .ok a
  | none => .error msg

def collectE {α β : Type} (f : α → Except String β) : List α → Except String (List β)
  | [] => .ok []
  | a :: as =>
    match f a with
    | .error e => .error e
    | .ok b =>
      match collectE f as with
      | .error e => .error e
      | .ok bs => .ok (b :: bs)

def foldE {σ α : Type} (f : σ → α → Except String σ) : σ → List α → Except String σ
  | s, [] => .ok s
  | s, a :: as =>
    match f s a with
    | .error e => .error e
    | .ok s' => foldE f s' as

/-! ### The tree builder -/

structure Params where
  features_ordered : List String
  chance_max_hit_percentage_threshold : ℚ
  chance_max_refusal_percentage_threshold : ℚ
  risk_min_hit_percentage_threshold : ℚ
  minimal_groupsize : Nat
deriving DecidableEq

structure BState where
  current_node_number : Nat
  node_registry : List (String × Nat)
  tree : DiGraph
deriving DecidableEq

/-- The root node added at source lines 98-106.  The source gives the root no
hit_percentage, refusal_percentage or hit_counts attributes; since no code
path ever reads them on the root, they are defaulted here to keep one
attribute record type. -/
def rootAttrs (df : List Record) : NodeAttrs :=
  { depth := 0, key := "Alle aanvragen", profile_type := .inbetween,
    total_count := df.length, hit_percentage := 0, refusal_percentage := 0,
    hit_counts := [] }

def comboAttrs (features_to_current_depth : List String) (current_feature : String)
    (current_depth : Nat) (c : Combo) : NodeAttrs :=
  { depth := current_depth,
    key := ((features_to_current_depth.zip c.vals).lookup current_feature).getD "",
    profile_type := c.profile_type,
    total_count := c.group_size,
    hit_percentage := c.applicant_hit_percentage * 100,
    refusal_percentage := c.refusal_percentage * 100,
    hit_counts := c.hit_counts }

/-- The parent dict of a combination: the key-value pairs with the current
feature removed (source line 211). -/
def parentCombo (comboVals : FeatureCombination) (current_feature : String) :
    FeatureCombination :=
  comboVals.filter (fun kv => kv.1 != current_feature)

/-- Processing of one collected row of a layer (source lines 190-281): resolve
the parent through the registry (KeyError when the hash is absent), register
the new node's hash, and append the node and the parent edge. -/
def processCombo (features_to_current_depth : List String) (current_feature : String)
    (current_depth : Nat) (st : BState) (c : Combo) : Except String BState :=
  let n := st.current_node_number + 1
  let current_feature_combination_values := features_to_current_depth.zip c.vals
  match st.node_registry.lookup
      (keyOfCombo (parentCombo current_feature_combination_values current_feature)) with
  | none => .error "KeyError: parent node hash not in registry"
  | some parent_node_number =>
    .ok ⟨n, dictInsert st.node_registry (keyOfCombo current_feature_combination_values) n,
      ⟨st.tree.nodes ++
          [(n, comboAttrs features_to_current_depth current_feature current_depth c)],
        st.tree.edges ++ [(parent_node_number, n)]⟩⟩

def processLayer (df : List Record) (features_ordered : List String) (cmh cmr rmh : ℚ)
    (m : Nat) (st : BState) (current_depth : Nat) : Except String BState :=
  let features_to_current_depth := features_ordered.take current_depth
  foldE (processCombo features_to_current_depth
      ((features_to_current_depth.getLast?).getD "") current_depth) st
    (layerCombos df features_to_current_depth cmh cmr rmh m)

/-- build_tree (source lines 65-300): the root node 0, the registry seeded with
the hash of the empty dict, then one layer per feature. -/
def build_tree (df : List Record) (features_ordered : List String)
    (chance_max_hit_percentage_threshold chance_max_refusal_percentage_threshold
      risk_min_hit_percentage_threshold : ℚ) (minimal_groupsize : Nat) :
    Except String (DiGraph × Params) :=
  let st0 : BState := ⟨0, dictInsert [] (keyOfCombo []) 0, ⟨[(0, rootAttrs df)], []⟩⟩
  match foldE (processLayer df features_ordered chance_max_hit_percentage_threshold
      chance_max_refusal_percentage_threshold risk_min_hit_percentage_threshold
      minimal_groupsize) st0 ((List.range features_ordered.length).map (· + 1)) with
  | .error e => .error e
  | .ok stF =>
    .ok (stF.tree, ⟨features_ordered, chance_max_hit_percentage_threshold,
      chance_max_refusal_percentage_threshold, risk_min_hit_percentage_threshold,
      minimal_groupsize⟩)

def c3State : BState := ⟨0, [], ⟨[(0, rootAttrs [])], []⟩⟩

def c3Combo : Combo := ⟨["v"], 0, 0, 1, [], .inbetween⟩

/-! ### C8: the build is deterministic, depth-major and per-layer sorted -/

/-- Sequential ids attached to a list of node attributes. -/
def withIds : Nat → List NodeAttrs → List (Nat × NodeAttrs)
  | _, [] => []
  | n, a :: as => (n, a) :: withIds (n + 1) as

def layerNodes (df : List Record) (features_ordered : List String) (cmh cmr rmh : ℚ)
    (m : Nat) (d : Nat) : List NodeAttrs :=
  (layerCombos df (features_ordered.take d) cmh cmr rmh m).map
    (comboAttrs (features_ordered.take d) (((features_ordered.take d).getLast?).getD "") d)

/-- The node list of a successful build, written directly: the root, then the
layers in depth order, each layer in its sorted order, ids consecutive. -/
def buildNodesList (df : List Record) (features_ordered : List String) (cmh cmr rmh : ℚ)
    (m : Nat) : List (Nat × NodeAttrs) :=
  (0, rootAttrs df) ::
    withIds 1 (((List.range features_ordered.length).map
      (fun i => layerNodes df features_ordered cmh cmr rmh m (i + 1))).flatten)

def dfW : List Record :=
  [⟨[("f", "v")], true, false, [false, false, false, false, false, false, false, false]⟩]

def cW : Combo := mkCombo dfW ["f"] 50 50 90 ["v"]

def tW8 : DiGraph := ⟨[(0, rootAttrs dfW), (1, comboAttrs ["f"] "f" 1 cW)], [(0, 1)]⟩

def pW8 : Params := ⟨["f"], 50, 50, 90, 1⟩

/-! ### prune_tree -/

def leavesOf (t : DiGraph) : List Nat :=
  t.nodeIds.filter (fun x => t.outDegree x == 0)

def inbetweenLeaves (t : DiGraph) : List Nat :=
  (leavesOf t).filter
    (fun x => decide ((t.nodes.lookup x).map (fun a => a.profile_type) =
      some ProfileType.inbetween))

/-- One parent-of-leaves check of the pruning pass (source lines 353-381):
skip when the parent is shallower than the minimum required depth, when not
every child is currently a leaf, or when the children types are not all equal
to the parent's; otherwise remove all children and clear the
last-run-clear flag.  Attribute lookups of absent nodes are KeyErrors. -/
def pruneParentCheck (min_depth_required : Nat) (tt : DiGraph) (clear : Bool)
    (parent_id : Nat) : Except String (DiGraph × Bool) :=
  match tt.nodes.lookup parent_id with
  | none => .error "KeyError"
  | some pa =>
    if pa.depth < min_depth_required then .ok (tt, clear)
    else if (tt.successors parent_id).isEmpty ||
        (tt.successors parent_id).any (fun c => !(tt.outDegree c == 0)) then
      .ok (tt, clear)
    else
      match collectE (fun c => orError (tt.nodes.lookup c) "KeyError")
          (tt.successors parent_id) with
      | .error e => .error e
      | .ok cas =>
        if (cas.map (fun a => a.profile_type)).dedup.length = 1 ∧
            (cas.map (fun a => a.profile_type)).dedup.head? = some pa.profile_type then
          .ok ((tt.successors parent_id).foldl DiGraph.removeNode tt, false)
        else
          .ok (tt, clear)

def pruneParentStep (min_depth_required : Nat) (st : DiGraph × Bool) (parent_id : Nat) :
    Except String (DiGraph × Bool) :=
  pruneParentCheck min_depth_required st.1 st.2 parent_id

/-- One full iteration of the while body of prune_tree (source lines 331-381):
remove the inbetween leaves, recompute the leaves, take each leaf's first
predecessor (an IndexError at a leaf without one), deduplicate, and process
every parent of a leaf.  Returns the tree with the last-run-clear flag. -/
def prunePass (t : DiGraph) (min_depth_required : Nat) : Except String (DiGraph × Bool) :=
  let t1 := (inbetweenLeaves t).foldl DiGraph.removeNode t
  match collectE (fun leaf => orError (t1.predecessors leaf).head?
      "IndexError: list index out of range") (leavesOf t1) with
  | .error e => .error e
  | .ok parents_of_leaves =>
    foldE (pruneParentStep min_depth_required) (t1, (inbetweenLeaves t).isEmpty)
      parents_of_leaves.dedup

def pruneLoop (min_depth_required : Nat) : Nat → DiGraph → Option (Except String DiGraph)
  | 0, _ => none
  | fuel + 1, t =>
    match prunePass t min_depth_required with
    | .error e => some (.error e)
    | .ok (t', last_run_clear) =>
      if last_run_clear then some (.ok t') else pruneLoop min_depth_required fuel t'

/-- prune_tree (source lines 309-384): iterate the pass to a fixed point.  The
fuel, one more than the node count, never runs out because every non-clear
pass strictly shrinks the tree. -/
def prune_tree (t : DiGraph) (min_depth_required : Nat := 3) :
    Option (Except String DiGraph) :=
  pruneLoop min_depth_required (t.size + 1) t

def rootA : NodeAttrs := ⟨0, "Alle aanvragen", .inbetween, 2, 0, 0, []⟩

def tID : DiGraph := ⟨[(0, rootA), (1, ⟨1, "v", .risk, 1, 0, 0, []⟩)], [(0, 1)]⟩

def tC5 : DiGraph :=
  ⟨[(0, rootA), (1, ⟨1, "v", .inbetween, 1, 0, 0, []⟩)], [(0, 1)]⟩

def tC9 : DiGraph := ⟨[(0, ⟨0, "Alle aanvragen", .inbetween, 1, 0, 0, []⟩)], []⟩

def tP : DiGraph :=
  ⟨[(0, rootA), (1, ⟨1, "a", .risk, 2, 0, 0, []⟩), (2, ⟨2, "b", .inbetween, 1, 0, 0, []⟩),
    (3, ⟨3, "c", .risk, 1, 0, 0, []⟩)], [(0, 1), (1, 2), (1, 3)]⟩

def tPafter : DiGraph :=
  ⟨[(0, rootA), (1, ⟨1, "a", .risk, 2, 0, 0, []⟩), (3, ⟨3, "c", .risk, 1, 0, 0, []⟩)],
    [(0, 1), (1, 3)]⟩

/-! ### filter_leaves_under_minimum_depth -/

/-- nx.shortest_path on a tree: the unique predecessor chain from x up to the
root, returned in root-to-leaf order; fuelled, with none for a missing path. -/
def pathUp (t : DiGraph) (root_node_id : Nat) : Nat → Nat → Option (List Nat)
  | _, 0 => none
  | x, fuel + 1 =>
    if x = root_node_id then some [x]
    else
      match (t.predecessors x).head? with
      | none => none
      | some p => (pathUp t root_node_id p fuel).map (fun path => path ++ [x])

def nodePath (t : DiGraph) (root_node_id x : Nat) : Option (List Nat) :=
  pathUp t root_node_id x (t.size + 1)

/-- One step of the bottom-to-top walk (source lines 413-418): a KeyError on an
absent node, removal only when the node currently has zero children. -/
def walkRemove (tt : DiGraph) (node : Nat) : Except String DiGraph :=
  if node ∈ tt.nodeIds then
    if tt.outDegree node = 0 then .ok (tt.removeNode node) else .ok tt
  else .error "KeyError"

/-- Handling of one leaf path (source lines 404-418): paths longer than the
minimum required depth are kept, otherwise walk the path bottom to top. -/
def filterPath (min_depth_required : Nat) (tt : DiGraph) (path : List Nat) :
    Except String DiGraph :=
  if path.length > min_depth_required then .ok tt
  else foldE walkRemove tt path.reverse

/-- filter_leaves_under_minimum_depth (source lines 394-421): compute all
root-to-leaf paths of one-incoming-edge leaves up front, then process each. -/
def filter_leaves_under_minimum_depth (tree : DiGraph) (min_depth_required : Nat := 3)
    (root_node_id : Nat := 0) : Except String DiGraph :=
  match collectE (fun x => orError (nodePath tree root_node_id x) "NetworkXNoPath")
      (tree.nodeIds.filter (fun x => tree.outDegree x == 0 && tree.inDegree x == 1)) with
  | .error e => .error e
  | .ok paths_to_leaves => foldE (filterPath min_depth_required) tree paths_to_leaves

/-- Shrinking relation preserved by the walk: nodes and edges only disappear,
and an edge into a surviving child survives together with its parent. -/
def Rrel (t t' : DiGraph) : Prop :=
  (∀ x, x ∈ t'.nodeIds → x ∈ t.nodeIds) ∧
  (∀ e, e ∈ t'.edges → e ∈ t.edges) ∧
  (∀ n c, (n, c) ∈ t.edges → c ∈ t'.nodeIds →
    ((n, c) ∈ t'.edges ∧ (n ∈ t.nodeIds → n ∈ t'.nodeIds)))

def tC6 : DiGraph := ⟨[(0, rootA), (1, ⟨1, "v", .risk, 1, 0, 0, []⟩)], [(0, 1)]⟩

def tW6 : DiGraph :=
  ⟨[(0, rootA), (1, ⟨1, "a", .risk, 3, 0, 0, []⟩), (2, ⟨2, "b", .risk, 2, 0, 0, []⟩),
    (3, ⟨3, "c", .risk, 1, 0, 0, []⟩), (4, ⟨4, "d", .chance, 1, 0, 0, []⟩)],
    [(0, 1), (1, 2), (2, 3), (0, 4)]⟩

def tW6after : DiGraph :=
  ⟨[(0, rootA), (1, ⟨1, "a", .risk, 3, 0, 0, []⟩), (2, ⟨2, "b", .risk, 2, 0, 0, []⟩),
    (3, ⟨3, "c", .risk, 1, 0, 0, []⟩)], [(0, 1), (1, 2), (2, 3)]⟩

/-! ### export_profiles_to_dict_from_tree -/

structure Profile where
  type : ProfileType
  hit_percentage : ℚ
  refusal_percentage : ℚ
  size : Nat
  hit_counts : List Nat
  features : List (String × String)
deriving DecidableEq

/-- python dict assignment for the features mapping. -/
def dictInsertStr (l : List (String × String)) (k v : String) : List (String × String) :=
  if (l.lookup k).isSome then
    l.map (fun kv => if kv.1 = k then (k, v) else kv)
  else
    l ++ [(k, v)]

/-- The features loop of the exporter (source lines 464-468): pair fragment i
of the path tail with dimension i, value the node's key attribute. -/
def featuresLoop (G : DiGraph) (dimensions : List String) :
    List (String × String) → Nat → List Nat → Except String (List (String × String))
  | acc, _, [] => .ok acc
  | acc, i, fragment :: rest =>
    match dimensions.get? i with
    | none => .error "IndexError: list index out of range"
    | some feature =>
      match G.nodes.lookup fragment with
      | none => .error "KeyError"
      | some a => featuresLoop G dimensions (dictInsertStr acc feature a.key) (i + 1) rest

/-- One profile record from one root-to-leaf path (source lines 446-468). -/
def mkProfile (G : DiGraph) (dimensions : List String) (path : List Nat) :
    Except String Profile :=
  match path.getLast? with
  | none => .error "IndexError: list index out of range"
  | some leaf_node_id =>
    match G.nodes.lookup leaf_node_id with
    | none => .error "KeyError"
    | some leaf_node =>
      match featuresLoop G dimensions [] 0 (path.drop 1) with
      | .error e => .error e
      | .ok feats =>
        .ok ⟨leaf_node.profile_type, leaf_node.hit_percentage / 100,
          leaf_node.refusal_percentage / 100, leaf_node.total_count,
          leaf_node.hit_counts, feats⟩

/-- The paths to the one-incoming-edge leaves, always from node 0 (source line
439 hardcodes 0 as the source of every shortest path). -/
def leafPaths (G : DiGraph) : Except String (List (List Nat)) :=
  collectE (fun x => orError (nodePath G 0 x) "NetworkXNoPath")
    (G.nodeIds.filter (fun x => G.outDegree x == 0 && G.inDegree x == 1))

/-- export_profiles_to_dict_from_tree (source lines 431-474); the profiles
dict is indexed by the running enumeration index, i.e. list order. -/
def export_profiles_to_dict_from_tree (G : DiGraph) (dimensions : List String)
    (root_node_id : Nat := 0) : Except String (List Profile) :=
  match leafPaths G with
  | .error e => .error e
  | .ok paths_to_leaves => collectE (mkProfile G dimensions) paths_to_leaves

def GW7 : DiGraph :=
  ⟨[(0, rootA), (1, ⟨1, "v", .risk, 10, 50, 20, [1, 2]⟩)], [(0, 1)]⟩

def prW7 : Profile := ⟨.risk, 50 / 100, 20 / 100, 10, [1, 2], [("f1", "v")]⟩

/-- C1: for every aggregate-statistics input and thresholds the classification
follows the fixed-order rule (chance test first, then risk, else inbetween)
and is total, yielding exactly one of the three profile types. -/
theorem classify_profile_type_total_fixed_order
    (hit refusal cmh cmr rmh : ℚ) :
    ((hit ≤ cmh / 100 ∧ refusal ≤ cmr / 100) →
        classify_profile_type hit refusal cmh cmr rmh = .chance) ∧
    (¬(hit ≤ cmh / 100 ∧ refusal ≤ cmr / 100) → rmh / 100 ≤ hit →
        classify_profile_type hit refusal cmh cmr rmh = .risk) ∧
    (¬(hit ≤ cmh / 100 ∧ refusal ≤ cmr / 100) → ¬(rmh / 100 ≤ hit) →
        classify_profile_type hit refusal cmh cmr rmh = .inbetween) ∧
    (classify_profile_type hit refusal cmh cmr rmh = .chance ∨
      classify_profile_type hit refusal cmh cmr rmh = .risk ∨
      classify_profile_type hit refusal cmh cmr rmh = .inbetween) := by
  unfold classify_profile_type
  refine ⟨?_, ?_, ?_, ?_⟩ <;> first
    | (intro h1 h2; simp [h1, h2])
    | (intro h1; simp [h1])
    | (split_ifs <;> simp)

/-- Concrete instantiation of the classification theorem. -/
theorem classify_profile_type_total_fixed_order_witness :
    classify_profile_type 0 0 50 50 90 = .chance :=
  (classify_profile_type_total_fixed_order 0 0 50 50 90).1 (by norm_num)

lemma add_mul_lt_mul {x y M K : Nat} (hx : x < M) (hy : y < K) : x + M * y < M * K := by
  have h1 : x + M * y < M + M * y := by omega
  have h2 : M + M * y = M * (y + 1) := by ring
  have h3 : M * (y + 1) ≤ M * K := Nat.mul_le_mul_left M (by omega)
  omega

/-- The digest value is a 128-bit quantity. -/
lemma md5Nat_lt (msg : List Nat) :
    md5Nat msg < 340282366920938463463374607431768211456 := by
  unfold md5Nat
  set r := md5Words msg
  have hB : (0 : Nat) < 4294967296 := by norm_num
  have h1 : r.2.2.2 % 4294967296 < 4294967296 := Nat.mod_lt _ hB
  have h2 : r.2.2.1 % 4294967296 + 4294967296 * (r.2.2.2 % 4294967296) <
      4294967296 * 4294967296 := add_mul_lt_mul (Nat.mod_lt _ hB) h1
  have h3 : r.2.1 % 4294967296 + 4294967296 * (r.2.2.1 % 4294967296 +
      4294967296 * (r.2.2.2 % 4294967296)) <
      4294967296 * (4294967296 * 4294967296) := add_mul_lt_mul (Nat.mod_lt _ hB) h2
  have h4 := add_mul_lt_mul (Nat.mod_lt (r.1) hB) h3
  calc r.1 % 4294967296 + 4294967296 * (r.2.1 % 4294967296 +
      4294967296 * (r.2.2.1 % 4294967296 + 4294967296 * (r.2.2.2 % 4294967296)))
      < 4294967296 * (4294967296 * (4294967296 * 4294967296)) := h4
    _ = 340282366920938463463374607431768211456 := by norm_num

/-- Counterexample to C2: the canonical-key index of build_tree is keyed by an
md5 digest, whose range is finite, so there exist two distinct
FeatureCombinations with the same index key. -/
theorem keyOfCombo_collision_exists :
    ∃ c₁ c₂ : FeatureCombination, c₁ ≠ c₂ ∧ keyOfCombo c₁ = keyOfCombo c₂ := by
  have hdig : ∀ n : Nat, md5Nat (strBytes (jsonDumps (aCombo n))) <
      340282366920938463463374607431768211456 := fun n => md5Nat_lt _
  obtain ⟨m, n, hne, heq⟩ := Finite.exists_ne_map_eq_of_infinite
    (fun n : Nat => (⟨md5Nat (strBytes (jsonDumps (aCombo n))), hdig n⟩ :
      Fin 340282366920938463463374607431768211456))
  refine ⟨aCombo m, aCombo n, ?_, ?_⟩
  · intro h
    apply hne
    have h2 : String.mk (List.replicate m 'a') = String.mk (List.replicate n 'a') := by
      simpa [aCombo] using h
    have h3 : List.replicate m 'a' = List.replicate n 'a' := by
      injection h2
    have h4 := congrArg List.length h3
    simpa using h4
  · have hmd : md5Nat (strBytes (jsonDumps (aCombo m))) =
        md5Nat (strBytes (jsonDumps (aCombo n))) := by
      have := congrArg Fin.val heq
      simpa using this
    simp only [keyOfCombo, md5Hex, hmd]

lemma lookup_map_overwrite (k : String) (v : Nat) :
    ∀ l : List (String × Nat), (l.lookup k).isSome →
      ((l.map (fun kv => if kv.1 = k then (k, v) else kv)).lookup k) = some v := by
  intro l
  induction l with
  | nil => intro h; simp [List.lookup] at h
  | cons hd tl ih =>
    intro h
    by_cases hk : hd.1 = k
    · simp only [List.map_cons, if_pos hk]
      simp [List.lookup]
    · have hne : (k == hd.1) = false := by
        simp [beq_iff_eq]
        exact fun he => hk he.symm
      simp only [List.map_cons, if_neg hk]
      simp only [List.lookup, hne]
      apply ih
      simpa [List.lookup, hne] using h

lemma lookup_append_fresh (k : String) (v : Nat) :
    ∀ l : List (String × Nat), l.lookup k = none →
      (l ++ [(k, v)]).lookup k = some v := by
  intro l
  induction l with
  | nil => intro _; simp [List.lookup]
  | cons hd tl ih =>
    intro h
    by_cases hk : k = hd.1
    · simp [List.lookup, hk] at h
    · have hne : (k == hd.1) = false := by simp [beq_iff_eq, hk]
      simp only [List.cons_append, List.lookup, hne]
      apply ih
      simpa [List.lookup, hne] using h

/-- C2 amended: the node registry is keyed by the md5 digest of the json
serialisation of a FeatureCombination; the key function is deterministic and
registering a combination and looking it up by its key always retrieves its
node id, in every registry state.  (Exact structural equality is not used:
distinct combinations receive distinct keys only in the absence of md5
collisions, which exist by the counterexample above.) -/
theorem registry_register_lookup_ok (reg : List (String × Nat))
    (c : FeatureCombination) (nid : Nat) :
    (dictInsert reg (keyOfCombo c) nid).lookup (keyOfCombo c) = some nid := by
  unfold dictInsert
  by_cases h : (reg.lookup (keyOfCombo c)).isSome
  · rw [if_pos h]
    exact lookup_map_overwrite _ _ _ h
  · rw [if_neg h]
    apply lookup_append_fresh
    rcases hv : reg.lookup (keyOfCombo c) with _ | v
    · rfl
    · rw [hv] at h; simp at h

/-- C3: a combination whose parent combination has no entry in the canonical-key
index makes the build fail with an error at that point; it is not skipped and
not attached to another parent. -/
theorem processCombo_missing_parent_errors (fs : List String) (cf : String) (d : Nat)
    (st : BState) (c : Combo)
    (h : st.node_registry.lookup (keyOfCombo (parentCombo (fs.zip c.vals) cf)) = none) :
    processCombo fs cf d st c = .error "KeyError: parent node hash not in registry" := by
  simp only [processCombo]
  rw [h]

/-- Concrete instantiation: with an empty registry the parent lookup fails and
processing the combination is an error. -/
theorem processCombo_missing_parent_errors_witness :
    processCombo ["f"] "f" 1 c3State c3Combo =
      .error "KeyError: parent node hash not in registry" :=
  processCombo_missing_parent_errors ["f"] "f" 1 c3State c3Combo rfl

lemma withIds_append (l₁ l₂ : List NodeAttrs) :
    ∀ n, withIds n (l₁ ++ l₂) = withIds n l₁ ++ withIds (n + l₁.length) l₂ := by
  induction l₁ with
  | nil => intro n; simp [withIds]
  | cons a as ih =>
    intro n
    simp only [List.cons_append, withIds]
    rw [show as.append l₂ = as ++ l₂ from rfl, ih (n + 1)]
    have harith : n + 1 + as.length = n + (as.length + 1) := by omega
    rw [List.length_cons, harith]

lemma length_withIds (l : List NodeAttrs) : ∀ n, (withIds n l).length = l.length := by
  induction l with
  | nil => intro n; simp [withIds]
  | cons a as ih => intro n; simp [withIds, ih]

lemma mapFst_withIds (l : List NodeAttrs) :
    ∀ n, (withIds n l).map Prod.fst = (List.range l.length).map (· + n) := by
  induction l with
  | nil => intro n; simp [withIds]
  | cons a as ih =>
    intro n
    simp only [withIds, List.map_cons, ih (n + 1), List.length_cons,
      List.range_succ_eq_map, List.map_map]
    congr 1
    · omega
    · apply List.map_congr_left
      intro x _
      simp only [Function.comp_apply, Nat.succ_eq_add_one]
      omega

lemma mapSnd_withIds (l : List NodeAttrs) : ∀ n, (withIds n l).map Prod.snd = l := by
  induction l with
  | nil => intro n; simp [withIds]
  | cons a as ih => intro n; simp [withIds, ih]

lemma processCombo_ok_shape (p : List String) (cf : String) (d : Nat) (st st' : BState)
    (c : Combo) (h : processCombo p cf d st c = .ok st') :
    st'.tree.nodes = st.tree.nodes ++
        [(st.current_node_number + 1, comboAttrs p cf d c)] ∧
      st'.current_node_number = st.current_node_number + 1 := by
  simp only [processCombo] at h
  rcases hl : st.node_registry.lookup (keyOfCombo (parentCombo (p.zip c.vals) cf)) with
    _ | pn
  · rw [hl] at h
    simp at h
  · rw [hl] at h
    simp only [Except.ok.injEq] at h
    rw [← h]
    exact ⟨rfl, rfl⟩

lemma foldE_processCombo_nodes (p : List String) (cf : String) (d : Nat) :
    ∀ (cs : List Combo) (st st' : BState),
      foldE (processCombo p cf d) st cs = .ok st' →
      st'.tree.nodes = st.tree.nodes ++
          withIds (st.current_node_number + 1) (cs.map (comboAttrs p cf d)) ∧
        st'.current_node_number = st.current_node_number + cs.length := by
  intro cs
  induction cs with
  | nil =>
    intro st st' h
    simp only [foldE, Except.ok.injEq] at h
    rw [← h]
    simp [withIds]
  | cons c cs ih =>
    intro st st' h
    simp only [foldE] at h
    rcases hpc : processCombo p cf d st c with e | st1
    · rw [hpc] at h
      simp at h
    · rw [hpc] at h
      obtain ⟨hn1, hc1⟩ := processCombo_ok_shape p cf d st st1 c hpc
      obtain ⟨hn2, hc2⟩ := ih st1 st' h
      constructor
      · rw [hn2, hn1, hc1, List.map_cons, withIds, List.append_assoc]
        rfl
      · rw [hc2, hc1, List.length_cons]
        omega

lemma foldE_processLayer_nodes (df : List Record) (fs : List String) (cmh cmr rmh : ℚ)
    (m : Nat) :
    ∀ (ds : List Nat) (st st' : BState),
      foldE (processLayer df fs cmh cmr rmh m) st ds = .ok st' →
      st'.tree.nodes = st.tree.nodes ++ withIds (st.current_node_number + 1)
          ((ds.map (fun d => layerNodes df fs cmh cmr rmh m d)).flatten) ∧
        st'.current_node_number = st.current_node_number +
          ((ds.map (fun d => layerNodes df fs cmh cmr rmh m d)).flatten).length := by
  intro ds
  induction ds with
  | nil =>
    intro st st' h
    simp only [foldE, Except.ok.injEq] at h
    rw [← h]
    simp [withIds]
  | cons d ds ih =>
    intro st st' h
    simp only [foldE] at h
    rcases hl : processLayer df fs cmh cmr rmh m st d with e | st1
    · rw [hl] at h
      simp at h
    · rw [hl] at h
      have hl' : foldE (processCombo (fs.take d) (((fs.take d).getLast?).getD "") d) st
          (layerCombos df (fs.take d) cmh cmr rmh m) = .ok st1 := hl
      obtain ⟨hn1, hc1⟩ := foldE_processCombo_nodes _ _ _ _ _ _ hl'
      obtain ⟨hn2, hc2⟩ := ih st1 st' h
      have hlayer : (layerCombos df (fs.take d) cmh cmr rmh m).map
          (comboAttrs (fs.take d) (((fs.take d).getLast?).getD "") d) =
          layerNodes df fs cmh cmr rmh m d := rfl
      have hlen : (layerNodes df fs cmh cmr rmh m d).length =
          (layerCombos df (fs.take d) cmh cmr rmh m).length := by
        rw [← hlayer, List.length_map]
      constructor
      · rw [hn2, hn1, hlayer, hc1, List.map_cons, List.flatten_cons, withIds_append,
          List.append_assoc]
        have harith : st.current_node_number +
            (layerCombos df (fs.take d) cmh cmr rmh m).length + 1 =
            st.current_node_number + 1 + (layerNodes df fs cmh cmr rmh m d).length := by
          rw [hlen]; omega
        rw [harith]
      · rw [hc2, hc1, List.map_cons, List.flatten_cons, List.length_append, hlen]
        omega

lemma pairwise_of_forall_mem {α : Type} {R : α → α → Prop} :
    ∀ l : List α, (∀ a ∈ l, ∀ b ∈ l, R a b) → l.Pairwise R := by
  intro l
  induction l with
  | nil => intro _; exact List.Pairwise.nil
  | cons a as ih =>
    intro h
    constructor
    · intro b hb
      exact h a (by simp) b (by simp [hb])
    · exact ih (fun x hx y hy => h x (by simp [hx]) y (by simp [hy]))

lemma layerNodes_depth (df : List Record) (fs : List String) (cmh cmr rmh : ℚ)
    (m d : Nat) : ∀ a ∈ layerNodes df fs cmh cmr rmh m d, a.depth = d := by
  intro a ha
  simp only [layerNodes, List.mem_map] at ha
  obtain ⟨c, _, rfl⟩ := ha
  rfl

/-- C8: a successful build yields exactly the depth-major node list: the root
with id 0 followed by the layers in depth order, each layer ascending
lexicographically in the tuple of feature values, with consecutive ids; and
the build is a pure function of its inputs, so two runs on identical inputs
produce identical results. -/
theorem build_tree_deterministic_depth_major_lex (df : List Record)
    (fs : List String) (cmh cmr rmh : ℚ) (m : Nat) (t : DiGraph) (ps : Params)
    (h : build_tree df fs cmh cmr rmh m = .ok (t, ps)) :
    t.nodes = buildNodesList df fs cmh cmr rmh m ∧
    t.nodes.map Prod.fst = List.range t.nodes.length ∧
    t.nodes.Pairwise (fun a b => a.2.depth ≤ b.2.depth) ∧
    (∀ d, List.Sorted (· ≤ ·)
      ((layerCombos df (fs.take d) cmh cmr rmh m).map Combo.vals)) ∧
    build_tree df fs cmh cmr rmh m = build_tree df fs cmh cmr rmh m := by
  have hnodes : t.nodes = buildNodesList df fs cmh cmr rmh m := by
    simp only [build_tree] at h
    rcases hf : foldE (processLayer df fs cmh cmr rmh m)
        ⟨0, dictInsert [] (keyOfCombo []) 0, ⟨[(0, rootAttrs df)], []⟩⟩
        ((List.range fs.length).map (· + 1)) with e | stF
    · rw [hf] at h
      simp at h
    · rw [hf] at h
      simp only [Except.ok.injEq, Prod.mk.injEq] at h
      obtain ⟨ht, _⟩ := h
      obtain ⟨hn, _⟩ := foldE_processLayer_nodes df fs cmh cmr rmh m _ _ _ hf
      rw [← ht, hn]
      simp only [buildNodesList, List.map_map]
      rfl
  refine ⟨hnodes, ?_, ?_, ?_, rfl⟩
  · rw [hnodes]
    simp only [buildNodesList, List.map_cons, List.length_cons, mapFst_withIds,
      List.range_succ_eq_map, length_withIds]
  · rw [hnodes]
    simp only [buildNodesList]
    constructor
    · intro b _
      exact Nat.zero_le _
    · apply (List.pairwise_map (R := fun a b : NodeAttrs => a.depth ≤ b.depth)
        (f := (Prod.snd : Nat × NodeAttrs → NodeAttrs))).mp
      rw [mapSnd_withIds]
      rw [List.pairwise_flatten]
      constructor
      · intro l' hl'
        simp only [List.mem_map, List.mem_range] at hl'
        obtain ⟨i, _, rfl⟩ := hl'
        apply pairwise_of_forall_mem
        intro a ha b hb
        rw [layerNodes_depth df fs cmh cmr rmh m (i + 1) a ha,
          layerNodes_depth df fs cmh cmr rmh m (i + 1) b hb]
      · rw [List.pairwise_map]
        apply List.Pairwise.imp ?_ (List.pairwise_lt_range fs.length)
        intro i j hij a ha b hb
        rw [layerNodes_depth df fs cmh cmr rmh m (i + 1) a ha,
          layerNodes_depth df fs cmh cmr rmh m (j + 1) b hb]
        omega
  · intro d
    have hvals : ∀ k, (mkCombo df (fs.take d) cmh cmr rmh k).vals = k := fun k => rfl
    simp only [layerCombos, List.map_map]
    have : (Combo.vals ∘ mkCombo df (fs.take d) cmh cmr rmh) = id := by
      funext k
      exact hvals k
    rw [this, List.map_id]
    exact List.sorted_insertionSort _ _

set_option maxRecDepth 10000 in
/-- Concrete instantiation of the build ordering theorem on a one-row
dataset. -/
theorem build_tree_deterministic_depth_major_lex_witness :
    tW8.nodes = buildNodesList dfW ["f"] 50 50 90 1 ∧
    tW8.nodes.map Prod.fst = List.range tW8.nodes.length :=
  have h : build_tree dfW ["f"] 50 50 90 1 = .ok (tW8, pW8) := by rfl
  ⟨(build_tree_deterministic_depth_major_lex dfW ["f"] 50 50 90 1 tW8 pW8 h).1,
    (build_tree_deterministic_depth_major_lex dfW ["f"] 50 50 90 1 tW8 pW8 h).2.1⟩

lemma length_filter_lt {α : Type} (p : α → Bool) (a : α) :
    ∀ l : List α, a ∈ l → p a = false → (l.filter p).length < l.length := by
  intro l
  induction l with
  | nil => intro h; simp at h
  | cons b bs ih =>
    intro hmem hpa
    rcases List.mem_cons.mp hmem with hab | hbs
    · subst hab
      rw [List.filter_cons, hpa]
      simp only [List.length_cons]
      exact Nat.lt_succ_of_le (List.length_filter_le p bs)
    · rw [List.filter_cons]
      rcases hpb : p b with _ | _
      · simp only [List.length_cons]
        exact Nat.lt_succ_of_le (Nat.le_of_lt (ih hbs hpa))
      · simp only [List.length_cons]
        exact Nat.succ_lt_succ (ih hbs hpa)

lemma removeNode_size_le (t : DiGraph) (x : Nat) : (t.removeNode x).size ≤ t.size :=
  List.length_filter_le _ _

lemma removeNode_size_lt (t : DiGraph) (x : Nat) (h : x ∈ t.nodeIds) :
    (t.removeNode x).size < t.size := by
  simp only [DiGraph.nodeIds, List.mem_map] at h
  obtain ⟨kv, hkv, hfst⟩ := h
  apply length_filter_lt _ kv _ hkv
  simp [hfst]

lemma foldl_removeNode_size_le :
    ∀ (xs : List Nat) (t : DiGraph), (xs.foldl DiGraph.removeNode t).size ≤ t.size := by
  intro xs
  induction xs with
  | nil => intro t; exact Nat.le_refl _
  | cons x xs ih =>
    intro t
    exact Nat.le_trans (ih (t.removeNode x)) (removeNode_size_le t x)

lemma foldl_removeNode_size_lt (x : Nat) (xs : List Nat) (t : DiGraph)
    (h : x ∈ t.nodeIds) : ((x :: xs).foldl DiGraph.removeNode t).size < t.size := by
  simp only [List.foldl_cons]
  exact Nat.lt_of_le_of_lt (foldl_removeNode_size_le xs (t.removeNode x))
    (removeNode_size_lt t x h)

lemma lookup_mem_keys {β : Type} {k : Nat} {v : β} :
    ∀ l : List (Nat × β), l.lookup k = some v → k ∈ l.map Prod.fst := by
  intro l
  induction l with
  | nil => intro h; simp [List.lookup] at h
  | cons hd tl ih =>
    intro h
    rcases hb : (k == hd.1) with _ | _
    · simp only [List.lookup, hb] at h
      exact List.mem_cons.mpr (.inr (ih h))
    · have heq : k = hd.1 := by simpa using hb
      exact List.mem_cons.mpr (.inl heq)

lemma collectE_ok_forall {α β : Type} (f : α → Except String β) :
    ∀ (l : List α) (out : List β), collectE f l = .ok out →
      ∀ a ∈ l, ∃ b, f a = .ok b := by
  intro l
  induction l with
  | nil => intro out _ a ha; simp at ha
  | cons x xs ih =>
    intro out h a ha
    simp only [collectE] at h
    rcases hf : f x with e | b
    · rw [hf] at h; simp at h
    · rw [hf] at h
      rcases hc : collectE f xs with e | bs
      · rw [hc] at h; simp at h
      · rcases List.mem_cons.mp ha with rfl | hxs
        · exact ⟨b, hf⟩
        · exact ih bs hc a hxs

lemma pruneParentCheck_cases (m : Nat) (tt : DiGraph) (c : Bool) (p : Nat)
    (tt' : DiGraph) (c' : Bool)
    (h : pruneParentCheck m tt c p = .ok (tt', c')) :
    (tt' = tt ∧ c' = c) ∨ (c' = false ∧ tt'.size < tt.size) := by
  rcases hl : tt.nodes.lookup p with _ | pa
  · simp only [pruneParentCheck, hl] at h
    simp at h
  · simp only [pruneParentCheck, hl] at h
    by_cases h1 : pa.depth < m
    · rw [if_pos h1] at h
      simp only [Except.ok.injEq, Prod.mk.injEq] at h
      exact .inl ⟨h.1.symm, h.2.symm⟩
    · rw [if_neg h1] at h
      by_cases h2 : ((tt.successors p).isEmpty ||
          (tt.successors p).any (fun c => !(tt.outDegree c == 0))) = true
      · rw [if_pos h2] at h
        simp only [Except.ok.injEq, Prod.mk.injEq] at h
        exact .inl ⟨h.1.symm, h.2.symm⟩
      · rw [if_neg h2] at h
        rcases hc : collectE (fun c => orError (tt.nodes.lookup c) "KeyError")
            (tt.successors p) with e | cas
        · rw [hc] at h
          simp at h
        · rw [hc] at h
          dsimp only at h
          by_cases h3 : (cas.map (fun a => a.profile_type)).dedup.length = 1 ∧
              (cas.map (fun a => a.profile_type)).dedup.head? = some pa.profile_type
          · rw [if_pos h3] at h
            simp only [Except.ok.injEq, Prod.mk.injEq] at h
            refine .inr ⟨h.2.symm, ?_⟩
            rw [← h.1]
            simp only [Bool.or_eq_true, not_or] at h2
            obtain ⟨hne, _⟩ := h2
            rcases hs : tt.successors p with _ | ⟨x, xs⟩
            · rw [hs] at hne
              simp at hne
            · obtain ⟨b, hb⟩ := collectE_ok_forall _ _ _ hc x (by rw [hs]; simp)
              have hx : tt.nodes.lookup x = some b := by
                rcases hlx : tt.nodes.lookup x with _ | b'
                · rw [hlx] at hb; simp [orError] at hb
                · rw [hlx] at hb
                  simp only [orError, Except.ok.injEq] at hb
                  rw [hb]
              exact foldl_removeNode_size_lt x xs tt (lookup_mem_keys _ hx)
          · rw [if_neg h3] at h
            simp only [Except.ok.injEq, Prod.mk.injEq] at h
            exact .inl ⟨h.1.symm, h.2.symm⟩

lemma foldE_prune_false (m : Nat) :
    ∀ (ps : List Nat) (tt tt' : DiGraph) (c' : Bool),
      foldE (pruneParentStep m) (tt, false) ps = .ok (tt', c') → c' = false := by
  intro ps
  induction ps with
  | nil =>
    intro tt tt' c' h
    simp only [foldE, Except.ok.injEq, Prod.mk.injEq] at h
    exact h.2.symm
  | cons p ps ih =>
    intro tt tt' c' h
    simp only [foldE] at h
    rcases hs : pruneParentStep m (tt, false) p with e | ⟨tt1, c1⟩
    · rw [hs] at h
      simp at h
    · rw [hs] at h
      rcases pruneParentCheck_cases m tt false p tt1 c1 hs with ⟨_, hc⟩ | ⟨hc, _⟩ <;>
        (subst hc; exact ih tt1 tt' c' h)

lemma foldE_prune_size_flag (m : Nat) :
    ∀ (ps : List Nat) (tt : DiGraph) (c : Bool) (tt' : DiGraph) (c' : Bool),
      foldE (pruneParentStep m) (tt, c) ps = .ok (tt', c') →
      tt'.size ≤ tt.size ∧ (c' = c ∨ (c' = false ∧ tt'.size < tt.size)) := by
  intro ps
  induction ps with
  | nil =>
    intro tt c tt' c' h
    simp only [foldE, Except.ok.injEq, Prod.mk.injEq] at h
    exact ⟨Nat.le_of_eq (congrArg DiGraph.size h.1.symm), .inl h.2.symm⟩
  | cons p ps ih =>
    intro tt c tt' c' h
    simp only [foldE] at h
    rcases hs : pruneParentStep m (tt, c) p with e | ⟨tt1, c1⟩
    · rw [hs] at h
      simp at h
    · rw [hs] at h
      rcases pruneParentCheck_cases m tt c p tt1 c1 hs with ⟨het, hec⟩ | ⟨hec, hlt⟩
      · rw [het, hec] at h
        exact ih tt c tt' c' h
      · rw [hec] at h
        obtain ⟨hle, hor⟩ := ih tt1 false tt' c' h
        refine ⟨Nat.le_trans hle (Nat.le_of_lt hlt), .inr ?_⟩
        rcases hor with hcc | ⟨hcc, hlt2⟩
        · exact ⟨hcc, Nat.lt_of_le_of_lt hle hlt⟩
        · exact ⟨hcc, Nat.lt_trans hlt2 hlt⟩

lemma foldE_prune_clear_eq (m : Nat) :
    ∀ (ps : List Nat) (tt tt' : DiGraph),
      foldE (pruneParentStep m) (tt, true) ps = .ok (tt', true) → tt' = tt := by
  intro ps
  induction ps with
  | nil =>
    intro tt tt' h
    simp only [foldE, Except.ok.injEq, Prod.mk.injEq] at h
    exact h.1.symm
  | cons p ps ih =>
    intro tt tt' h
    simp only [foldE] at h
    rcases hs : pruneParentStep m (tt, true) p with e | ⟨tt1, c1⟩
    · rw [hs] at h
      simp at h
    · rw [hs] at h
      rcases pruneParentCheck_cases m tt true p tt1 c1 hs with ⟨het, hec⟩ | ⟨hec, _⟩
      · rw [het, hec] at h
        exact ih tt tt' h
      · rw [hec] at h
        exact absurd (foldE_prune_false m ps tt1 tt' true h) (by simp)

lemma inbetweenLeaves_subset_nodeIds (t : DiGraph) (x : Nat)
    (h : x ∈ inbetweenLeaves t) : x ∈ t.nodeIds :=
  List.mem_of_mem_filter (List.mem_of_mem_filter h)

lemma prunePass_clear_eq (t : DiGraph) (m : Nat) (t' : DiGraph)
    (h : prunePass t m = .ok (t', true)) : t' = t := by
  simp only [prunePass] at h
  rcases hc : collectE (fun leaf =>
      orError (((inbetweenLeaves t).foldl DiGraph.removeNode t).predecessors leaf).head?
        "IndexError: list index out of range")
      (leavesOf ((inbetweenLeaves t).foldl DiGraph.removeNode t)) with e | parents
  · rw [hc] at h
    simp at h
  · rw [hc] at h
    dsimp only at h
    rcases hb : (inbetweenLeaves t).isEmpty with _ | _
    · rw [hb] at h
      exact absurd (foldE_prune_false m _ _ _ _ h) (by simp)
    · rw [hb] at h
      have hnil : inbetweenLeaves t = [] := by
        rcases hi : inbetweenLeaves t with _ | ⟨y, ys⟩
        · rfl
        · rw [hi] at hb
          simp [List.isEmpty] at hb
      have h2 := foldE_prune_clear_eq m _ _ _ h
      rw [h2, hnil]
      rfl

lemma prunePass_not_clear_size (t : DiGraph) (m : Nat) (t' : DiGraph)
    (h : prunePass t m = .ok (t', false)) : t'.size < t.size := by
  simp only [prunePass] at h
  rcases hc : collectE (fun leaf =>
      orError (((inbetweenLeaves t).foldl DiGraph.removeNode t).predecessors leaf).head?
        "IndexError: list index out of range")
      (leavesOf ((inbetweenLeaves t).foldl DiGraph.removeNode t)) with e | parents
  · rw [hc] at h
    simp at h
  · rw [hc] at h
    dsimp only at h
    obtain ⟨hle, hor⟩ := foldE_prune_size_flag m parents.dedup _ _ t' false h
    rcases hor with hcc | ⟨_, hlt⟩
    · have hne : (inbetweenLeaves t).isEmpty = false := hcc.symm
      rcases hi : inbetweenLeaves t with _ | ⟨x, xs⟩
      · rw [hi] at hne
        simp [List.isEmpty] at hne
      · have hx : x ∈ t.nodeIds :=
          inbetweenLeaves_subset_nodeIds t x (by rw [hi]; simp)
        have hlt1 : ((inbetweenLeaves t).foldl DiGraph.removeNode t).size < t.size := by
          rw [hi]
          exact foldl_removeNode_size_lt x xs t hx
        exact Nat.lt_of_le_of_lt hle hlt1
    · exact Nat.lt_of_lt_of_le hlt (foldl_removeNode_size_le _ t)

lemma pruneLoop_isSome (m : Nat) :
    ∀ (fuel : Nat) (t : DiGraph), t.size < fuel → (pruneLoop m fuel t).isSome := by
  intro fuel
  induction fuel with
  | zero => intro t h; exact absurd h (Nat.not_lt_zero _)
  | succ n ih =>
    intro t h
    rcases hp : prunePass t m with e | ⟨t', clear⟩
    · simp [pruneLoop, hp]
    · rcases clear with _ | _
      · simp only [pruneLoop, hp]
        simp only [Bool.false_eq_true, if_false]
        exact ih t' (Nat.lt_of_lt_of_le (prunePass_not_clear_size t m t' hp)
          (Nat.lt_succ_iff.mp h))
      · simp [pruneLoop, hp]

lemma pruneLoop_last_pass (m : Nat) :
    ∀ (fuel : Nat) (t t' : DiGraph),
      pruneLoop m fuel t = some (.ok t') → prunePass t' m = .ok (t', true) := by
  intro fuel
  induction fuel with
  | zero => intro t t' h; simp [pruneLoop] at h
  | succ n ih =>
    intro t t' h
    rcases hp : prunePass t m with e | ⟨t1, clear⟩
    · simp only [pruneLoop, hp] at h
      simp at h
    · rcases clear with _ | _
      · simp only [pruneLoop, hp, Bool.false_eq_true, if_false] at h
        exact ih t1 t' h
      · simp only [pruneLoop, hp, if_true] at h
        simp only [Option.some.injEq, Except.ok.injEq] at h
        rw [← h]
        have heq := prunePass_clear_eq t m t1 hp
        rw [heq] at hp ⊢
        exact hp

/-- C4: pruning is idempotent: whenever prune_tree returns a tree, pruning
that tree again returns it unchanged, and its very first pass is already
clear, performing zero removals. -/
theorem prune_tree_idempotent (t : DiGraph) (m : Nat) (t' : DiGraph)
    (h : prune_tree t m = some (.ok t')) :
    prune_tree t' m = some (.ok t') ∧ prunePass t' m = .ok (t', true) := by
  have hl := pruneLoop_last_pass m (t.size + 1) t t' h
  refine ⟨?_, hl⟩
  simp [prune_tree, pruneLoop, hl]

/-- Concrete instantiation of the idempotence theorem: this two-node tree is a
fixed point of pruning. -/
theorem prune_tree_idempotent_witness : prune_tree tID 3 = some (.ok tID) :=
  (prune_tree_idempotent tID 3 tID (by rfl)).1

/-- C5 fails on the code: on a tree whose only non-root node is an inbetween
leaf, the pass removes that leaf, the root becomes a leaf with no predecessor,
and the parents-of-leaves comprehension raises IndexError instead of
completing with only the root left. -/
theorem prune_tree_indexerror_on_root_leaf :
    prune_tree tC5 3 = some (.error "IndexError: list index out of range") := by
  rfl

/-- Counterexample to C9 as stated: the node count is not bounded below by the
root; pruning the single-node tree (an inbetween leaf root) removes the root
and returns the empty tree of size zero. -/
theorem prune_tree_root_removed_counterexample :
    prune_tree tC9 3 = some (.ok ⟨[], []⟩) ∧ tC9.size = 1 ∧
      DiGraph.size ⟨[], []⟩ = 0 :=
  ⟨by rfl, rfl, rfl⟩

/-- C9 amended: the pruning loop terminates for every finite input tree (the
fuelled fixed-point loop always returns), because every pass that triggers
another iteration strictly decreases the node count, which is bounded below
by zero (the root itself can be removed). -/
theorem prune_tree_terminates_strict_decrease :
    (∀ (t : DiGraph) (m : Nat), (prune_tree t m).isSome) ∧
    (∀ (t : DiGraph) (m : Nat) (t' : DiGraph),
      prunePass t m = .ok (t', false) → t'.size < t.size) :=
  ⟨fun t m => pruneLoop_isSome m (t.size + 1) t (Nat.lt_succ_self _),
    fun t m t' h => prunePass_not_clear_size t m t' h⟩

/-- Concrete instantiation of the strict-decrease part: a pass that removes an
inbetween leaf shrinks the tree. -/
theorem prune_tree_terminates_strict_decrease_witness : tPafter.size < tP.size :=
  prune_tree_terminates_strict_decrease.2 tP 3 tPafter (by rfl)

lemma Rrel_refl (t : DiGraph) : Rrel t t :=
  ⟨fun _ h => h, fun _ h => h, fun _ _ he _ => ⟨he, id⟩⟩

lemma Rrel_trans {t t1 t2 : DiGraph} (h1 : Rrel t t1) (h2 : Rrel t1 t2) : Rrel t t2 := by
  obtain ⟨hn1, he1, hp1⟩ := h1
  obtain ⟨hn2, he2, hp2⟩ := h2
  refine ⟨fun x hx => hn1 x (hn2 x hx), fun e he => he1 e (he2 e he), ?_⟩
  intro n c hec hc2
  obtain ⟨hec1, hni1⟩ := hp1 n c hec (hn2 c hc2)
  obtain ⟨hec2, hni2⟩ := hp2 n c hec1 hc2
  exact ⟨hec2, fun hn => hni2 (hni1 hn)⟩

lemma Rrel_removeNode (t : DiGraph) (x : Nat) (h : t.outDegree x = 0) :
    Rrel t (t.removeNode x) := by
  refine ⟨?_, ?_, ?_⟩
  · intro y hy
    simp only [DiGraph.removeNode, DiGraph.nodeIds, List.mem_map, List.mem_filter] at hy ⊢
    obtain ⟨kv, ⟨hkv, _⟩, hfst⟩ := hy
    exact ⟨kv, hkv, hfst⟩
  · intro e he
    simp only [DiGraph.removeNode, List.mem_filter] at he
    exact he.1
  · intro n c hec hc
    have hcx : c ≠ x := by
      simp only [DiGraph.removeNode, DiGraph.nodeIds, List.mem_map, List.mem_filter] at hc
      obtain ⟨kv, ⟨_, hne⟩, hfst⟩ := hc
      rw [← hfst]
      simpa using hne
    have hnx : n ≠ x := by
      intro heq
      subst heq
      have hmem : (n, c) ∈ t.edges.filter (fun e => e.1 == n) := by
        simp [List.mem_filter, hec]
      have hlen : 0 < (t.edges.filter (fun e => e.1 == n)).length :=
        List.length_pos.mpr (fun hemp => by rw [hemp] at hmem; simp at hmem)
      rw [DiGraph.outDegree] at h
      omega
    refine ⟨?_, ?_⟩
    · simp only [DiGraph.removeNode, List.mem_filter]
      refine ⟨hec, ?_⟩
      simp [hnx, hcx]
    · intro hn
      simp only [DiGraph.removeNode, DiGraph.nodeIds, List.mem_map, List.mem_filter] at hn ⊢
      obtain ⟨kv, hkv, hfst⟩ := hn
      refine ⟨kv, ⟨hkv, ?_⟩, hfst⟩
      simp only [bne_iff_ne]
      rw [hfst]
      exact hnx

lemma walkRemove_R (tt : DiGraph) (node : Nat) (tt' : DiGraph)
    (h : walkRemove tt node = .ok tt') : Rrel tt tt' := by
  unfold walkRemove at h
  by_cases hm : node ∈ tt.nodeIds
  · rw [if_pos hm] at h
    by_cases ho : tt.outDegree node = 0
    · rw [if_pos ho] at h
      simp only [Except.ok.injEq] at h
      rw [← h]
      exact Rrel_removeNode tt node ho
    · rw [if_neg ho] at h
      simp only [Except.ok.injEq] at h
      rw [← h]
      exact Rrel_refl tt
  · rw [if_neg hm] at h
    simp at h

lemma foldE_walk_R : ∀ (l : List Nat) (tt tt' : DiGraph),
    foldE walkRemove tt l = .ok tt' → Rrel tt tt' := by
  intro l
  induction l with
  | nil =>
    intro tt tt' h
    simp only [foldE, Except.ok.injEq] at h
    rw [← h]
    exact Rrel_refl tt
  | cons x xs ih =>
    intro tt tt' h
    simp only [foldE] at h
    rcases hw : walkRemove tt x with e | tt1
    · rw [hw] at h
      simp at h
    · rw [hw] at h
      exact Rrel_trans (walkRemove_R tt x tt1 hw) (ih tt1 tt' h)

lemma filterPath_R (m : Nat) (tt : DiGraph) (path : List Nat) (tt' : DiGraph)
    (h : filterPath m tt path = .ok tt') : Rrel tt tt' := by
  unfold filterPath at h
  by_cases hl : path.length > m
  · rw [if_pos hl] at h
    simp only [Except.ok.injEq] at h
    rw [← h]
    exact Rrel_refl tt
  · rw [if_neg hl] at h
    exact foldE_walk_R path.reverse tt tt' h

lemma foldE_filterPath_R (m : Nat) : ∀ (paths : List (List Nat)) (tt tt' : DiGraph),
    foldE (filterPath m) tt paths = .ok tt' → Rrel tt tt' := by
  intro paths
  induction paths with
  | nil =>
    intro tt tt' h
    simp only [foldE, Except.ok.injEq] at h
    rw [← h]
    exact Rrel_refl tt
  | cons p ps ih =>
    intro tt tt' h
    simp only [foldE] at h
    rcases hf : filterPath m tt p with e | tt1
    · rw [hf] at h
      simp at h
    · rw [hf] at h
      exact Rrel_trans (filterPath_R m tt p tt1 hf) (ih tt1 tt' h)

/-- C6 amended: the depth filter removes a node only when it currently has
zero children, so an edge whose child survives the filter survives itself,
together with its parent node: shared prefixes of surviving deeper profiles
stay intact.  (The root is not special: it is removed as well when it ends
with zero children, see the counterexample.) -/
theorem filter_preserves_parents_of_surviving_children (t : DiGraph) (m r : Nat)
    (t' : DiGraph) (h : filter_leaves_under_minimum_depth t m r = .ok t')
    (n c : Nat) (hedge : (n, c) ∈ t.edges) (hc : c ∈ t'.nodeIds) :
    (n, c) ∈ t'.edges ∧ (n ∈ t.nodeIds → n ∈ t'.nodeIds) := by
  simp only [filter_leaves_under_minimum_depth] at h
  rcases hp : collectE (fun x => orError (nodePath t r x) "NetworkXNoPath")
      (t.nodeIds.filter (fun x => t.outDegree x == 0 && t.inDegree x == 1)) with e | paths
  · rw [hp] at h
    simp at h
  · rw [hp] at h
    dsimp only at h
    exact (foldE_filterPath_R m paths t t' h).2.2 n c hedge hc

/-- Counterexample to C6 as stated: on a tree with one too-shallow leaf under
the root, the upward walk does not stop at the root: once the leaf is removed
the root has zero children, and the filter removes the root too. -/
theorem filter_removes_root_counterexample :
    filter_leaves_under_minimum_depth tC6 3 0 = .ok ⟨[], []⟩ := by
  rfl

/-- Concrete instantiation: removing the shallow leaf 4 leaves the shared
parent edge (0, 1) of the surviving deep profile intact. -/
theorem filter_preserves_parents_witness :
    (0, 1) ∈ tW6after.edges ∧ (0 ∈ tW6.nodeIds → 0 ∈ tW6after.nodeIds) :=
  filter_preserves_parents_of_surviving_children tW6 3 0 tW6after (by rfl) 0 1
    (by decide) (by decide)

/-- C10: the exporter ignores its root_node_id parameter entirely: paths are
always computed from node 0, so any two arguments give identical output. -/
theorem export_ignores_root_node_id_param (G : DiGraph) (dimensions : List String)
    (r1 r2 : Nat) :
    export_profiles_to_dict_from_tree G dimensions r1 =
      export_profiles_to_dict_from_tree G dimensions r2 := rfl

lemma collectE_ok_get {α β : Type} (f : α → Except String β) :
    ∀ (l : List α) (out : List β), collectE f l = .ok out →
      out.length = l.length ∧
      ∀ i a b, l.get? i = some a → out.get? i = some b → f a = .ok b := by
  intro l
  induction l with
  | nil =>
    intro out h
    simp only [collectE, Except.ok.injEq] at h
    rw [← h]
    exact ⟨rfl, fun i a b ha _ => by simp at ha⟩
  | cons x xs ih =>
    intro out h
    simp only [collectE] at h
    rcases hf : f x with e | b
    · rw [hf] at h
      simp at h
    · rw [hf] at h
      rcases hc : collectE f xs with e | bs
      · rw [hc] at h
        simp at h
      · rw [hc] at h
        simp only [Except.ok.injEq] at h
        rw [← h]
        obtain ⟨hlen, hget⟩ := ih bs hc
        refine ⟨by simp [hlen], ?_⟩
        intro i a b' ha hb
        cases i with
        | zero =>
          rw [List.get?_cons_zero, Option.some.injEq] at ha hb
          rw [← ha, ← hb]
          exact hf
        | succ n =>
          rw [List.get?_cons_succ] at ha hb
          exact hget n a b' ha hb

lemma nodup_get?_not_mem_take :
    ∀ (d : List String) (i : Nat) (x : String), d.Nodup → d.get? i = some x →
      x ∉ d.take i := by
  intro d
  induction d with
  | nil => intro i x _ h; simp at h
  | cons hd tl ih =>
    intro i x hnd h
    cases i with
    | zero => simp
    | succ n =>
      rw [List.get?_cons_succ] at h
      rw [List.take_succ_cons]
      intro hmem
      rcases List.mem_cons.mp hmem with heq | hmem2
      · have hx : x ∈ tl := List.get?_mem h
        rw [heq] at hx
        exact (List.nodup_cons.mp hnd).1 hx
      · exact ih n x (List.nodup_cons.mp hnd).2 h hmem2

lemma lookup_eq_none_of_not_mem_keys :
    ∀ (l : List (String × String)) (k : String), k ∉ l.map Prod.fst →
      l.lookup k = none := by
  intro l
  induction l with
  | nil => intro k _; rfl
  | cons hd tl ih =>
    intro k hk
    simp only [List.map_cons, List.mem_cons, not_or] at hk
    obtain ⟨h1, h2⟩ := hk
    have hb : (k == hd.1) = false := by simp [h1]
    simp only [List.lookup, hb]
    exact ih k h2

lemma dictInsertStr_fresh (l : List (String × String)) (k v : String)
    (h : k ∉ l.map Prod.fst) : dictInsertStr l k v = l ++ [(k, v)] := by
  unfold dictInsertStr
  rw [lookup_eq_none_of_not_mem_keys l k h]
  simp

lemma featuresLoop_spec (G : DiGraph) (dims : List String) (hnd : dims.Nodup) :
    ∀ (frags : List Nat) (i : Nat) (acc : List (String × String)),
      (∀ k ∈ acc.map Prod.fst, k ∈ dims.take i) →
      ∀ out, featuresLoop G dims acc i frags = .ok out →
        out = acc ++ ((dims.drop i).take frags.length).zip
            (frags.map (fun v => (G.getAttr v).key)) ∧
        out.length = acc.length + frags.length := by
  intro frags
  induction frags with
  | nil =>
    intro i acc _ out h
    simp only [featuresLoop, Except.ok.injEq] at h
    rw [← h]
    simp
  | cons frag rest ih =>
    intro i acc hacc out h
    simp only [featuresLoop] at h
    rcases hd : dims.get? i with _ | feature
    · rw [hd] at h
      simp at h
    · rw [hd] at h
      rcases hl : G.nodes.lookup frag with _ | a
      · rw [hl] at h
        simp at h
      · rw [hl] at h
        dsimp only at h
        have hfresh : feature ∉ acc.map Prod.fst := fun hmem =>
          nodup_get?_not_mem_take dims i feature hnd hd (hacc feature hmem)
        rw [dictInsertStr_fresh acc feature a.key hfresh] at h
        have hgetElem : dims[i]? = some feature := by
          rw [← List.get?_eq_getElem?]
          exact hd
        have hacc2 : ∀ k ∈ (acc ++ [(feature, a.key)]).map Prod.fst,
            k ∈ dims.take (i + 1) := by
          intro k hk
          rw [List.take_succ, hgetElem]
          simp only [List.map_append, List.mem_append] at hk
          rcases hk with hk | hk
          · exact List.mem_append_left _ (hacc k hk)
          · simp only [List.map_cons, List.map_nil, List.mem_singleton] at hk
            subst hk
            apply List.mem_append_right
            simp
        obtain ⟨hout, hlen⟩ := ih (i + 1) (acc ++ [(feature, a.key)]) hacc2 out h
        have hidx : i < dims.length := by
          rcases List.get?_eq_some.mp hd with ⟨hlt, _⟩
          exact hlt
        have hdrop : dims.drop i = feature :: dims.drop (i + 1) := by
          rw [List.drop_eq_getElem_cons hidx]
          congr 1
          rcases List.get?_eq_some.mp hd with ⟨hlt, hval⟩
          rw [← hval]
          simp [List.get_eq_getElem]
        have hkey : (G.getAttr frag).key = a.key := by
          simp [DiGraph.getAttr, hl]
        constructor
        · rw [hout, hdrop]
          simp only [List.length_cons, List.take_succ_cons, List.map_cons,
            List.zip_cons_cons, List.append_assoc, List.singleton_append, hkey]
        · rw [hlen]
          simp only [List.length_append, List.length_cons, List.length_nil]
          omega

lemma mkProfile_spec (G : DiGraph) (dims : List String) (path : List Nat) (pr : Profile)
    (hnd : dims.Nodup) (h : mkProfile G dims path = .ok pr) :
    pr.type = (G.getAttr ((path.getLast?).getD 0)).profile_type ∧
    pr.hit_percentage = (G.getAttr ((path.getLast?).getD 0)).hit_percentage / 100 ∧
    pr.refusal_percentage =
      (G.getAttr ((path.getLast?).getD 0)).refusal_percentage / 100 ∧
    pr.size = (G.getAttr ((path.getLast?).getD 0)).total_count ∧
    pr.hit_counts = (G.getAttr ((path.getLast?).getD 0)).hit_counts ∧
    pr.features = (dims.take (path.length - 1)).zip
      ((path.drop 1).map (fun v => (G.getAttr v).key)) ∧
    pr.features.length = path.length - 1 := by
  simp only [mkProfile] at h
  rcases hg : path.getLast? with _ | leaf
  · rw [hg] at h
    simp at h
  · rw [hg] at h
    dsimp only at h
    rcases hl : G.nodes.lookup leaf with _ | a
    · rw [hl] at h
      simp at h
    · rw [hl] at h
      dsimp only at h
      rcases hfl : featuresLoop G dims [] 0 (path.drop 1) with e | feats
      · rw [hfl] at h
        simp at h
      · rw [hfl] at h
        simp only [Except.ok.injEq] at h
        obtain ⟨hfe, hflen⟩ := featuresLoop_spec G dims hnd (path.drop 1) 0 []
          (by simp) feats hfl
        have hattr : G.getAttr leaf = a := by
          simp [DiGraph.getAttr, hl]
        have hlen1 : (path.drop 1).length = path.length - 1 := by simp
        rw [← h]
        simp only [Option.getD_some]
        rw [hattr]
        refine ⟨rfl, rfl, rfl, rfl, rfl, ?_, ?_⟩
        · show feats = _
          rw [hfe, hlen1]
          simp
        · show feats.length = _
          rw [hflen, hlen1]
          simp

/-- C7: provided the feature names are distinct, every exported profile record
carries the leaf's profile type as its type, the leaf's percentages divided by
100, the leaf's group size and sub-category hit counts, and a features mapping
that pairs feature name i with the key of the path node at position i + 1,
with exactly path length minus one entries (the leaf's depth, the path being
counted with the root). -/
theorem export_profile_fields_and_features (G : DiGraph) (dimensions : List String)
    (root_node_id : Nat) (paths : List (List Nat)) (ps : List Profile)
    (hnd : dimensions.Nodup) (hpaths : leafPaths G = .ok paths)
    (h : export_profiles_to_dict_from_tree G dimensions root_node_id = .ok ps) :
    ps.length = paths.length ∧
    ∀ i path pr, paths.get? i = some path → ps.get? i = some pr →
      pr.type = (G.getAttr ((path.getLast?).getD 0)).profile_type ∧
      pr.hit_percentage = (G.getAttr ((path.getLast?).getD 0)).hit_percentage / 100 ∧
      pr.refusal_percentage =
        (G.getAttr ((path.getLast?).getD 0)).refusal_percentage / 100 ∧
      pr.size = (G.getAttr ((path.getLast?).getD 0)).total_count ∧
      pr.hit_counts = (G.getAttr ((path.getLast?).getD 0)).hit_counts ∧
      pr.features = (dimensions.take (path.length - 1)).zip
        ((path.drop 1).map (fun v => (G.getAttr v).key)) ∧
      pr.features.length = path.length - 1 := by
  simp only [export_profiles_to_dict_from_tree, hpaths] at h
  obtain ⟨hlen, hget⟩ := collectE_ok_get (mkProfile G dimensions) paths ps h
  refine ⟨hlen, ?_⟩
  intro i path pr hp hpr
  exact mkProfile_spec G dimensions path pr hnd (hget i path pr hp hpr)

/-- Concrete instantiation of the exporter theorem on a one-leaf tree. -/
theorem export_profile_fields_witness :
    prW7.features = (["f1"].take ([0, 1].length - 1)).zip
        (([0, 1].drop 1).map (fun v => (GW7.getAttr v).key)) ∧
      prW7.features.length = [0, 1].length - 1 :=
  ((export_profile_fields_and_features GW7 ["f1"] 0 [[0, 1]] [prW7] (by simp)
    (by rfl) (by rfl)).2 0 [0, 1] prW7 rfl rfl).2.2.2.2.2
